import Mathlib

/-!
Verification of the ceyal task tracker (`task_manager.py`, `ceyal.py`).

Timestamps (`datetime` values) are modelled as integers (seconds); Python
`datetime` subtraction and `total_seconds` are exact on whole seconds, and
all properties below are about the field values, never about calendar
formatting.  Printed status messages are modelled as a structured
`TransitionMsg` outcome value.
-/

namespace Ceyal

/-- Model of a wall-clock timestamp: seconds (as an integer). -/
abbrev Time := Int

/-- The `TaskStatus` string enum of `task_manager.py`. -/
inductive TaskStatus where
  | pending
  | ongoing
  | paused
  | completed
deriving DecidableEq, Repr

/-- The underlying string value of a `TaskStatus` member. -/
def TaskStatus.value : TaskStatus → String
  | .pending => "pending"
  | .ongoing => "ongoing"
  | .paused => "paused"
  | .completed => "completed"

/-- The fields of a `Task` object (`Task.__init__` plus later mutation). -/
structure Task where
  name : String
  id : String
  target_time : Option Time
  desc : Option String
  dead_time : Option Time
  created_time : Time
  start_times : List Time
  pause_times : List Time
  is_complete : Bool
deriving DecidableEq, Repr

/-- Constructor `Task.__init__`: the generated-or-given id is passed in as a
string (uuid generation is external randomness), `created_time` is the
current clock, the timestamp lists start empty and `is_complete` false. -/
def Task.init (name : String) (target_time : Option Time) (desc : Option String)
    (dead_time : Option Time) (id : String) (now : Time) : Task :=
  { name := name, id := id, target_time := target_time, desc := desc,
    dead_time := dead_time, created_time := now,
    start_times := [], pause_times := [], is_complete := false }

/-- Property `Task.is_running`:
`len(start_times) > len(pause_times) and not is_complete`. -/
def Task.is_running (t : Task) : Bool :=
  decide (t.start_times.length > t.pause_times.length) && !t.is_complete

/-- Property `Task.status`: completed if `is_complete`, else ongoing if
running, else pending if no start yet, else paused. -/
def Task.status (t : Task) : TaskStatus :=
  if t.is_complete then TaskStatus.completed
  else if t.is_running then TaskStatus.ongoing
  else if t.start_times.isEmpty then TaskStatus.pending
  else TaskStatus.paused

/-- Structured model of the status messages the transition methods print. -/
inductive TransitionMsg where
  | started
  | alreadyRunning
  | cannotStart (s : TaskStatus)
  | resumed
  | cannotResume (s : TaskStatus)
  | pausedOk
  | cannotPause (s : TaskStatus)
  | completedOk
  | alreadyCompleted
deriving DecidableEq, Repr

/-- Method `Task.start`: from `pending` append now to `start_times`;
`ongoing` reports already running; any other status reports cannot-start. -/
def Task.start (t : Task) (now : Time) : Task × TransitionMsg :=
  if t.status = TaskStatus.pending then
    ({ t with start_times := t.start_times ++ [now] }, TransitionMsg.started)
  else if t.status = TaskStatus.ongoing then
    (t, TransitionMsg.alreadyRunning)
  else
    (t, TransitionMsg.cannotStart t.status)

/-- Method `Task.resume`: from `paused` append now to `start_times`;
`ongoing` reports already running; any other status reports cannot-resume. -/
def Task.resume (t : Task) (now : Time) : Task × TransitionMsg :=
  if t.status = TaskStatus.paused then
    ({ t with start_times := t.start_times ++ [now] }, TransitionMsg.resumed)
  else if t.status = TaskStatus.ongoing then
    (t, TransitionMsg.alreadyRunning)
  else
    (t, TransitionMsg.cannotResume t.status)

/-- Method `Task.pause`: from `ongoing` append now to `pause_times`; any
other status reports cannot-pause. -/
def Task.pause (t : Task) (now : Time) : Task × TransitionMsg :=
  if t.status = TaskStatus.ongoing then
    ({ t with pause_times := t.pause_times ++ [now] }, TransitionMsg.pausedOk)
  else
    (t, TransitionMsg.cannotPause t.status)

/-- Second half of the body of `Task.complete` (after the conditional close
of the open interval): if the status is already `completed`, report and
return unchanged; otherwise set `is_complete := true`. -/
def Task.completeFinish (t1 : Task) : Task × TransitionMsg :=
  if t1.status = TaskStatus.completed then
    (t1, TransitionMsg.alreadyCompleted)
  else
    ({ t1 with is_complete := true }, TransitionMsg.completedOk)

/-- Method `Task.complete`: if `ongoing`, first append now to
`pause_times`; then run the completion check on the updated task. -/
def Task.complete (t : Task) (now : Time) : Task × TransitionMsg :=
  Task.completeFinish
    (if t.status = TaskStatus.ongoing then
      { t with pause_times := t.pause_times ++ [now] } else t)

/-- Property `Task.elapsed_time`: 0 if never started, else now minus the
first start. -/
def Task.elapsed_time (t : Task) (now : Time) : Int :=
  if t.start_times.isEmpty then 0
  else now - t.start_times.headI

/-- Property `Task.active_time`: the loop accumulating `pause - start` over
the positional zip of the two lists, plus `now - start_times[-1]` when
running. -/
def Task.active_time (t : Task) (now : Time) : Int :=
  let active_t : Int :=
    (t.start_times.zip t.pause_times).foldl (fun acc p => acc + (p.2 - p.1)) 0
  if t.is_running then active_t + (now - t.start_times.getLast!)
  else active_t

/-- The four state-transition methods, as an alphabet for operation
sequences. -/
inductive Op where
  | start
  | resume
  | pause
  | complete
deriving DecidableEq, Repr

/-- Apply one transition method (with its wall-clock argument), keeping the
task state and dropping the reported message. -/
def Task.applyOp (t : Task) (p : Op × Time) : Task :=
  match p.1 with
  | Op.start => (t.start p.2).1
  | Op.resume => (t.resume p.2).1
  | Op.pause => (t.pause p.2).1
  | Op.complete => (t.complete p.2).1

/-- Run a finite sequence of transition calls in order. -/
def Task.runOps (t : Task) (ops : List (Op × Time)) : Task :=
  ops.foldl Task.applyOp t

example :
    (Task.init "a" none none none "i" 0).status = TaskStatus.pending := by decide

example :
    (((Task.init "a" none none none "i" 0).start 1).1.status) = TaskStatus.ongoing := by
  decide

/-- Characters of the decimal expansion of a natural number, most
significant digit first; empty for 0. -/
def natChars (n : Nat) : List Char :=
  ((Nat.digits 10 n).map Nat.digitChar).reverse

/-- Model of `datetime.isoformat`: render the timestamp as its decimal
string (sign, then digits). The proofs use about the real `isoformat` only
that it is a nonempty string exactly inverted by `fromisoformat`, which is
what Python datetime round-trips guarantee. -/
def isoformat (t : Time) : String :=
  if t < 0 then String.mk ('-' :: natChars t.natAbs)
  else if t = 0 then "0"
  else String.mk (natChars t.natAbs)

/-- Numeric value of a decimal digit character. -/
def charVal (c : Char) : Nat := c.toNat - 48

/-- Parse a digit-character list, most significant digit first. -/
def natOfChars (cs : List Char) : Nat :=
  Nat.ofDigits 10 ((cs.map charVal).reverse)

/-- Model of `datetime.fromisoformat`, the exact inverse of `isoformat`. -/
def fromisoformat (s : String) : Time :=
  match s.data with
  | [] => 0
  | c :: cs =>
    if c = '-' then -(natOfChars cs : Int) else (natOfChars (c :: cs) : Int)

theorem charVal_digitChar (d : Nat) (h : d < 10) :
    charVal (Nat.digitChar d) = d := by
  interval_cases d <;> rfl

theorem natOfChars_natChars (n : Nat) : natOfChars (natChars n) = n := by
  unfold natOfChars natChars
  rw [List.map_reverse, List.reverse_reverse, List.map_map]
  have h : ∀ d ∈ Nat.digits 10 n, (charVal ∘ Nat.digitChar) d = id d := by
    intro d hd
    exact charVal_digitChar d (Nat.digits_lt_base (by norm_num) hd)
  rw [List.map_congr_left h, List.map_id]
  exact Nat.ofDigits_digits 10 n

theorem natChars_ne_nil (n : Nat) (h : n ≠ 0) : natChars n ≠ [] := by
  unfold natChars
  simp [Nat.digits_ne_nil_iff_ne_zero, h]

theorem mem_natChars_ne_dash (n : Nat) (c : Char) (hc : c ∈ natChars n) :
    c ≠ '-' := by
  unfold natChars at hc
  rw [List.mem_reverse, List.mem_map] at hc
  obtain ⟨d, hd, rfl⟩ := hc
  have hlt : d < 10 := Nat.digits_lt_base (by norm_num) hd
  interval_cases d <;> decide

theorem fromisoformat_isoformat (t : Int) :
    fromisoformat (isoformat t) = t := by
  unfold isoformat
  by_cases hneg : t < 0
  · simp only [if_pos hneg]
    show fromisoformat (String.mk ('-' :: natChars t.natAbs)) = t
    unfold fromisoformat
    simp only [if_true, reduceIte, natOfChars_natChars]
    rw [Int.natCast_natAbs, abs_of_neg hneg, neg_neg]
  · by_cases hz : t = 0
    · simp [if_neg hneg, if_pos hz, hz]
      rfl
    · simp only [if_neg hneg, if_neg hz]
      show fromisoformat (String.mk (natChars t.natAbs)) = t
      obtain ⟨c, cs, hcons⟩ :=
        List.exists_cons_of_ne_nil (natChars_ne_nil t.natAbs (Int.natAbs_ne_zero.mpr hz))
      unfold fromisoformat
      rw [hcons]
      have hne : c ≠ '-' :=
        mem_natChars_ne_dash t.natAbs c (by rw [hcons]; exact List.mem_cons_self c cs)
      simp only [if_neg hne]
      rw [← hcons, natOfChars_natChars, Int.natCast_natAbs,
        abs_of_nonneg (le_of_not_lt hneg)]

theorem isoformat_ne_empty (t : Int) : isoformat t ≠ "" := by
  unfold isoformat
  by_cases hneg : t < 0
  · simp only [if_pos hneg]
    intro h
    have h2 : ('-' :: natChars t.natAbs) = [] := by
      have := congrArg String.data h
      simp at this
    simp at h2
  · by_cases hz : t = 0
    · simp [if_neg hneg, if_pos hz]
    · simp only [if_neg hneg, if_neg hz]
      intro h
      have : natChars t.natAbs = [] := by
        have := congrArg String.data h
        simpa using this
      exact natChars_ne_nil t.natAbs (Int.natAbs_ne_zero.mpr hz) this

theorem isoformat_isEmpty_false (t : Int) : (isoformat t).isEmpty = false := by
  rw [Bool.eq_false_iff]
  intro h
  exact isoformat_ne_empty t ((String.isEmpty_iff _).mp h)

/-- The JSON record written for one task: the value side of `to_dict` and
the input of `from_dict`, timestamps rendered as strings, optional fields
nullable. -/
structure TaskDict where
  name : String
  id : String
  target_time : Option String
  desc : Option String
  dead_time : Option String
  created_time : String
  start_times : List String
  pause_times : List String
  is_complete : Bool
deriving DecidableEq, Repr

/-- Method `Task.to_dict`: each optional timestamp is rendered when truthy
(a datetime object is always truthy), lists are rendered elementwise. -/
def Task.to_dict (t : Task) : TaskDict :=
  { name := t.name, id := t.id,
    target_time := t.target_time.map isoformat,
    desc := t.desc,
    dead_time := t.dead_time.map isoformat,
    created_time := isoformat t.created_time,
    start_times := t.start_times.map isoformat,
    pause_times := t.pause_times.map isoformat,
    is_complete := t.is_complete }

/-- The conditional expression in `from_dict` for nullable timestamp
fields: Python truthiness makes both None and the empty string parse to
None. -/
def parseOptTime (s : Option String) : Option Time :=
  match s with
  | none => none
  | some str => if str.isEmpty then none else some (fromisoformat str)

/-- Classmethod `Task.from_dict`: build a task through the constructor
(which stamps the current clock as `created_time`), then overwrite
`created_time`, the two timestamp lists and `is_complete` from the record. -/
def Task.from_dict (data : TaskDict) (now : Time) : Task :=
  let task := Task.init data.name (parseOptTime data.target_time) data.desc
    (parseOptTime data.dead_time) data.id now
  { task with
    created_time := fromisoformat data.created_time,
    start_times := data.start_times.map fromisoformat,
    pause_times := data.pause_times.map fromisoformat,
    is_complete := data.is_complete }

theorem parseOptTime_map_isoformat (x : Option Time) :
    parseOptTime (x.map isoformat) = x := by
  cases x with
  | none => rfl
  | some t =>
    show (if (isoformat t).isEmpty then none else some (fromisoformat (isoformat t)))
      = some t
    rw [isoformat_isEmpty_false t]
    simp only [Bool.false_eq_true, if_false, fromisoformat_isoformat]

theorem map_fromisoformat_map_isoformat (l : List Time) :
    (l.map isoformat).map fromisoformat = l := by
  rw [List.map_map]
  have h : ∀ t ∈ l, (fromisoformat ∘ isoformat) t = id t := by
    intro t _
    exact fromisoformat_isoformat t
  rw [List.map_congr_left h, List.map_id]

theorem from_dict_to_dict (t : Task) (now : Time) :
    Task.from_dict t.to_dict now = t := by
  unfold Task.from_dict Task.to_dict Task.init
  simp only [parseOptTime_map_isoformat, map_fromisoformat_map_isoformat,
    fromisoformat_isoformat]

/-- The in-memory store: the `tasks` dict of `TaskManager`, as an
association list in insertion order (Python dicts preserve it). -/
abbrev Store := List (String × Task)

/-- Contents of the durable file as seen by `open` + `json.load`: a missing
file, text on which JSON decoding fails, or a decoded mapping of task
records in key order. -/
inductive FileData where
  | missing
  | malformed
  | records (d : List (String × TaskDict))
deriving DecidableEq, Repr

/-- The main durable file together with its sibling backup file. -/
structure FS where
  main : FileData
  backup : FileData
deriving DecidableEq, Repr

/-- First step of `TaskManager.save_tasks`: best-effort copy the current
main file over the backup file; the FileNotFoundError raised by copying a
missing main file is swallowed. -/
def TaskManager.save_backup (fs : FS) : FS :=
  match fs.main with
  | FileData.missing => fs
  | m => { fs with backup := m }

/-- Method `TaskManager.save_tasks`: after the backup step, rewrite the
main file completely with every task serialized through `to_dict`. -/
def TaskManager.save_tasks (fs : FS) (tasks : Store) : FS :=
  { TaskManager.save_backup fs with
    main := FileData.records (tasks.map (fun p => (p.1, p.2.to_dict))) }

/-- Method `TaskManager.load_tasks`: a missing file and an undecodable file
are both caught and give the empty mapping; a decoded mapping is rebuilt
entry by entry through `Task.from_dict`. -/
def TaskManager.load_tasks (file : FileData) (now : Time) : Store :=
  match file with
  | FileData.missing => []
  | FileData.malformed => []
  | FileData.records d => d.map (fun p => (p.1, Task.from_dict p.2 now))

/-- One scoped store session, the `with TaskManager() as tm` block of
`ceyal.py`: `__enter__` loads from the main file, the command body runs and
either ends normally or with an error value, and `__exit__` first saves
unconditionally and then returns False on error, so the error of the body
propagates to the caller. -/
def TaskManager.runSession (fs : FS) (now : Time)
    (body : Store → Store × Option String) : FS × Option String :=
  let tasks := TaskManager.load_tasks fs.main now
  let r := body tasks
  (TaskManager.save_tasks fs r.1, r.2)

/-- Method `TaskManager.get`: `dict.get`, an absent key gives none. -/
def TaskManager.get (tasks : Store) (task_id : String) : Option Task :=
  (tasks.find? (fun p => p.1 = task_id)).map Prod.snd

/-- Outcome of `find_task_by_partial_id` in `ceyal.py`: either the process
exits with an error message, or the function returns what `tm.get` gave. -/
inductive FindResult where
  | exitNotFound
  | exitAmbiguous
  | task (t : Option Task)
deriving DecidableEq, Repr

/-- The `matches` list comprehension of `find_task_by_partial`: the stored
ids that start with the given string, in store order. -/
def find_hits (tasks : Store) (pid : String) : List String :=
  (tasks.map Prod.fst).filter (fun tid => tid.startsWith pid)

/-- Function `find_task_by_partial` of `ceyal.py` (suffixed name, after its
`partial_id` argument): zero matching ids exit not-found, two or more exit
ambiguous, exactly one is looked up through `tm.get`. -/
def find_task_by_partial_id (tasks : Store) (pid : String) : FindResult :=
  if (find_hits tasks pid).length = 0 then FindResult.exitNotFound
  else if (find_hits tasks pid).length > 1 then FindResult.exitAmbiguous
  else FindResult.task (TaskManager.get tasks (find_hits tasks pid).headI)

/-- The sort key relation of `list_all`: ascending `created_time`. -/
def createdLe (a b : Task) : Prop := a.created_time ≤ b.created_time

instance : DecidableRel createdLe :=
  fun a b => inferInstanceAs (Decidable (a.created_time ≤ b.created_time))

instance : IsTotal Task createdLe :=
  ⟨fun a b => le_total a.created_time b.created_time⟩

instance : IsTrans Task createdLe :=
  ⟨fun _ _ _ hab hbc => le_trans hab hbc⟩

/-- Model of the builtin stable sort `sorted(tasks, key=created_time)`:
a stable sort by the same key. -/
def sortByCreated (l : List Task) : List Task :=
  l.insertionSort createdLe

/-- The Bool of `if filter_status and task.status != filter_status` (all
TaskStatus values are truthy, None is falsy). -/
def skipByFilter (filter_status : Option TaskStatus) (t : Task) : Bool :=
  match filter_status with
  | some fsv => decide (t.status ≠ fsv)
  | none => false

/-- The Bool of `if not show_all and not filter_status and
task.status == TaskStatus.COMPLETED`. -/
def skipCompleted (show_all : Bool) (filter_status : Option TaskStatus)
    (t : Task) : Bool :=
  !show_all && filter_status.isNone && decide (t.status = TaskStatus.completed)

/-- The body of the `for task in sorted_tasks` loop of `list_all`,
returning the sequence of tasks actually rendered (a skipped task is a
`continue`). -/
def listLoop (show_all : Bool) (filter_status : Option TaskStatus) :
    List Task → List Task
  | [] => []
  | task :: rest =>
    if skipByFilter filter_status task then listLoop show_all filter_status rest
    else if skipCompleted show_all filter_status task then
      listLoop show_all filter_status rest
    else task :: listLoop show_all filter_status rest

/-- Method `TaskManager.list_all`: sort the stored tasks by creation time
and render them through the filtering loop. -/
def TaskManager.list_all (tasks : Store) (show_all : Bool)
    (filter_status : Option TaskStatus) : List Task :=
  listLoop show_all filter_status (sortByCreated (tasks.map Prod.snd))

/-- The length invariant of the two timestamp lists. -/
def Inv (t : Task) : Prop :=
  t.pause_times.length ≤ t.start_times.length ∧
  t.start_times.length ≤ t.pause_times.length + 1

theorem is_running_iff (t : Task) :
    t.is_running = true ↔
      (t.pause_times.length < t.start_times.length ∧ t.is_complete = false) := by
  simp [Task.is_running, Bool.and_eq_true, decide_eq_true_iff, Bool.not_eq_true']

theorem status_pending_facts (t : Task) (h : t.status = TaskStatus.pending) :
    t.start_times = [] ∧ t.is_complete = false := by
  unfold Task.status at h
  split_ifs at h with h1 h2 h3
  exact ⟨List.isEmpty_iff.mp h3, Bool.eq_false_iff.mpr h1⟩

theorem status_paused_facts (t : Task) (h : t.status = TaskStatus.paused) :
    t.start_times.length ≤ t.pause_times.length ∧ t.is_complete = false := by
  unfold Task.status at h
  split_ifs at h with h1 h2 h3
  refine ⟨?_, Bool.eq_false_iff.mpr h1⟩
  have hr : t.is_running = false := Bool.eq_false_iff.mpr h2
  rw [Bool.eq_false_iff] at hr
  by_contra hle
  exact hr ((is_running_iff t).mpr ⟨by omega, Bool.eq_false_iff.mpr h1⟩)

theorem status_ongoing_facts (t : Task) (h : t.status = TaskStatus.ongoing) :
    t.pause_times.length < t.start_times.length ∧ t.is_complete = false := by
  unfold Task.status at h
  split_ifs at h with h1 h2
  exact (is_running_iff t).mp h2

theorem applyOp_inv (t : Task) (p : Op × Time) (h : Inv t) : Inv (t.applyOp p) := by
  obtain ⟨h1, h2⟩ := h
  cases hp : p.1 <;> unfold Task.applyOp <;> rw [hp]
  · unfold Task.start
    split_ifs with hs ho
    · obtain ⟨hnil, _⟩ := status_pending_facts t hs
      have h0 : t.pause_times.length = 0 := by
        rw [hnil] at h1
        simpa using h1
      refine ⟨?_, ?_⟩ <;> simp [hnil, h0, List.length_append]
    · exact ⟨h1, h2⟩
    · exact ⟨h1, h2⟩
  · unfold Task.resume
    split_ifs with hs ho
    · obtain ⟨hle, _⟩ := status_paused_facts t hs
      constructor <;> simp [List.length_append] <;> omega
    · exact ⟨h1, h2⟩
    · exact ⟨h1, h2⟩
  · unfold Task.pause
    split_ifs with hs
    · obtain ⟨hlt, _⟩ := status_ongoing_facts t hs
      constructor <;> simp [List.length_append] <;> omega
    · exact ⟨h1, h2⟩
  · unfold Task.complete
    by_cases hs : t.status = TaskStatus.ongoing
    · obtain ⟨hlt, _⟩ := status_ongoing_facts t hs
      simp only [if_pos hs]
      unfold Task.completeFinish
      split_ifs <;> constructor <;> simp [List.length_append] <;> omega
    · simp only [if_neg hs]
      unfold Task.completeFinish
      split_ifs <;> exact ⟨h1, h2⟩

theorem runOps_inv (ops : List (Op × Time)) (t : Task) (h : Inv t) :
    Inv (t.runOps ops) := by
  induction ops generalizing t with
  | nil => exact h
  | cons p rest ih =>
    have : Task.runOps t (p :: rest) = Task.runOps (t.applyOp p) rest := by
      simp [Task.runOps]
    rw [this]
    exact ih _ (applyOp_inv t p h)

theorem init_inv (name : String) (target : Option Time) (desc : Option String)
    (dead : Option Time) (id : String) (created : Time) :
    Inv (Task.init name target desc dead id created) := by
  constructor <;> simp [Task.init]

/-- C1: from a fresh task, after any finite sequence of start, resume,
pause, complete calls, `len(pause_times) <= len(start_times) <=
len(pause_times) + 1`, and the task is running iff
`len(start_times) > len(pause_times)` and not `is_complete`. -/
theorem c1_state_invariant (name : String) (target : Option Time)
    (desc : Option String) (dead : Option Time) (id : String) (created : Time)
    (ops : List (Op × Time)) :
    ((Task.init name target desc dead id created).runOps ops).pause_times.length ≤
      ((Task.init name target desc dead id created).runOps ops).start_times.length ∧
    ((Task.init name target desc dead id created).runOps ops).start_times.length ≤
      ((Task.init name target desc dead id created).runOps ops).pause_times.length + 1 ∧
    (((Task.init name target desc dead id created).runOps ops).is_running = true ↔
      (((Task.init name target desc dead id created).runOps ops).pause_times.length <
        ((Task.init name target desc dead id created).runOps ops).start_times.length ∧
      ((Task.init name target desc dead id created).runOps ops).is_complete = false)) := by
  have h := runOps_inv ops _ (init_inv name target desc dead id created)
  exact ⟨h.1, h.2, is_running_iff _⟩

theorem status_completed_iff (t : Task) :
    t.status = TaskStatus.completed ↔ t.is_complete = true := by
  constructor
  · intro h
    unfold Task.status at h
    split_ifs at h with h1 h2 h3
    · exact h1
  · intro h
    unfold Task.status
    simp [h]

theorem completeFinish_is_complete (t1 : Task) :
    (t1.completeFinish).1.is_complete = true := by
  unfold Task.completeFinish
  split_ifs with h1
  · exact (status_completed_iff _).mp h1
  · rfl

theorem complete_sets_is_complete (t : Task) (n : Time) :
    (t.complete n).1.is_complete = true := by
  unfold Task.complete
  exact completeFinish_is_complete _

theorem complete_of_complete (t : Task) (n : Time) (h : t.is_complete = true) :
    t.complete n = (t, TransitionMsg.alreadyCompleted) := by
  have hst : t.status = TaskStatus.completed := (status_completed_iff t).mpr h
  have h1 : t.status ≠ TaskStatus.ongoing := by rw [hst]; decide
  unfold Task.complete Task.completeFinish
  rw [if_neg h1, if_pos hst]

/-- C2: complete is idempotent; the second call changes nothing and reports
already-completed; a single complete on an ongoing task appends the clock
value to pause_times and sets is_complete. -/
theorem c2_complete_idempotent (t : Task) (n1 n2 : Time) :
    ((t.complete n1).1.complete n2).1 = (t.complete n1).1 ∧
    ((t.complete n1).1.complete n2).2 = TransitionMsg.alreadyCompleted ∧
    (t.status = TaskStatus.ongoing →
      (t.complete n1).1 =
        { t with pause_times := t.pause_times ++ [n1], is_complete := true }) := by
  have hsecond := complete_of_complete (t.complete n1).1 n2 (complete_sets_is_complete t n1)
  refine ⟨by rw [hsecond], by rw [hsecond], ?_⟩
  intro h
  have hc : t.is_complete = false := (status_ongoing_facts t h).2
  unfold Task.complete Task.completeFinish
  rw [if_pos h]
  have hnc : ¬({ t with pause_times := t.pause_times ++ [n1] } : Task).status
      = TaskStatus.completed := by
    intro habs
    have h2 := (status_completed_iff _).mp habs
    simp [hc] at h2
  rw [if_neg hnc]

/-- Concrete instance of the ongoing branch of the idempotence claim. -/
def taskC2 : Task :=
  { name := "w", id := "w2", target_time := none, desc := none, dead_time := none,
    created_time := 0, start_times := [1], pause_times := [], is_complete := false }

theorem c2_complete_idempotent_witness :
    ((taskC2.complete 5).1.complete 9).1 = (taskC2.complete 5).1 ∧
    ((taskC2.complete 5).1.complete 9).2 = TransitionMsg.alreadyCompleted ∧
    (taskC2.complete 5).1 =
      { taskC2 with pause_times := taskC2.pause_times ++ [5], is_complete := true } :=
  ⟨(c2_complete_idempotent taskC2 5 9).1, (c2_complete_idempotent taskC2 5 9).2.1,
    (c2_complete_idempotent taskC2 5 9).2.2 (by decide)⟩

/-- C4: start mutates (appending now to start_times) exactly from pending,
resume exactly from paused, pause (appending to pause_times) exactly from
ongoing; from every other status the task is returned unchanged. -/
theorem c4_transition_guards (t : Task) (now : Time) :
    ((t.start now).1 = if t.status = TaskStatus.pending then
        { t with start_times := t.start_times ++ [now] } else t) ∧
    ((t.resume now).1 = if t.status = TaskStatus.paused then
        { t with start_times := t.start_times ++ [now] } else t) ∧
    ((t.pause now).1 = if t.status = TaskStatus.ongoing then
        { t with pause_times := t.pause_times ++ [now] } else t) := by
  refine ⟨?_, ?_, ?_⟩
  · unfold Task.start
    split_ifs <;> rfl
  · unfold Task.resume
    split_ifs <;> rfl
  · unfold Task.pause
    split_ifs <;> rfl

theorem not_ongoing_not_running (t : Task) (h : t.status ≠ TaskStatus.ongoing) :
    t.is_running = false := by
  cases hr : t.is_running
  · rfl
  · exfalso
    apply h
    have hc : t.is_complete = false := ((is_running_iff t).mp hr).2
    unfold Task.status
    simp [hc, hr]

/-- C10: for a task that is not ongoing, active_time does not depend on the
query clock. -/
theorem c10_active_time_clock_independent (t : Task) (n1 n2 : Time)
    (h : t.status ≠ TaskStatus.ongoing) :
    t.active_time n1 = t.active_time n2 := by
  have hr := not_ongoing_not_running t h
  unfold Task.active_time
  simp [hr]

/-- Concrete paused task for the clock-independence claim. -/
def taskC10 : Task :=
  { name := "w", id := "w10", target_time := none, desc := none, dead_time := none,
    created_time := 0, start_times := [1], pause_times := [3], is_complete := false }

theorem c10_witness :
    taskC10.status ≠ TaskStatus.ongoing ∧
    taskC10.active_time 5 = taskC10.active_time 9 :=
  ⟨by decide, c10_active_time_clock_independent taskC10 5 9 (by decide)⟩

theorem foldl_sub_sum (l : List (Int × Int)) (a : Int) :
    l.foldl (fun acc p => acc + (p.2 - p.1)) a
      = a + (l.map (fun p => p.2 - p.1)).sum := by
  induction l generalizing a with
  | nil => simp
  | cons x xs ih =>
    simp only [List.foldl_cons, List.map_cons, List.sum_cons, ih]
    ring

/-- C3: active_time equals the sum of pause minus start over the zipped
pairs plus, exactly when running, now minus the last start; and a task
taken through two closed start/pause cycles of durations d1 and d2 has
active_time d1 + d2. -/
theorem c3_active_time_sum (t : Task) (now : Time)
    (name id : String) (target : Option Time) (desc : Option String)
    (dead : Option Time) (created s1 d1 s2 d2 q : Time) :
    (t.active_time now =
      ((t.start_times.zip t.pause_times).map (fun p => p.2 - p.1)).sum +
        (if t.is_running then now - t.start_times.getLast! else 0)) ∧
    ((((((Task.init name target desc dead id created).start s1).1.pause
        (s1 + d1)).1.resume s2).1.pause (s2 + d2)).1.active_time q = d1 + d2) := by
  constructor
  · unfold Task.active_time
    rw [foldl_sub_sum]
    split_ifs <;> ring
  · have hfinal : (((((Task.init name target desc dead id created).start s1).1.pause
        (s1 + d1)).1.resume s2).1.pause (s2 + d2)).1
      = { name := name, id := id, target_time := target, desc := desc,
          dead_time := dead, created_time := created, start_times := [s1, s2],
          pause_times := [s1 + d1, s2 + d2], is_complete := false } := by
      rfl
    rw [hfinal]
    show (0 + (s1 + d1 - s1) + (s2 + d2 - s2) : Int) = d1 + d2
    ring

/-- C5: persistence round-trips losslessly: loading the file produced by
saving any in-memory store state reproduces that state field-for-field,
whatever the previous file contents and whatever the clock at load time. -/
theorem c5_save_load_roundtrip (ts : Store) (fs : FS) (now : Time) :
    TaskManager.load_tasks (TaskManager.save_tasks fs ts).main now = ts := by
  show List.map (fun (p : String × TaskDict) => (p.1, Task.from_dict p.2 now))
    (ts.map (fun p => (p.1, p.2.to_dict))) = ts
  induction ts with
  | nil => rfl
  | cons x xs ih => simp only [List.map_cons, from_dict_to_dict, ih]

/-- C8: loading is leniently total: a missing file and a file whose
contents fail decoding both load as the empty mapping, with no error. -/
theorem c8_load_lenient (now : Time) :
    TaskManager.load_tasks FileData.missing now = [] ∧
    TaskManager.load_tasks FileData.malformed now = [] :=
  ⟨rfl, rfl⟩

/-- C9: on every exit path of the scoped session (normal return or error),
the full mutated store is serialized to the main file before the session
ends, and a body error is still surfaced to the caller afterwards. -/
theorem c9_save_on_every_exit (fs : FS) (now : Time)
    (body : Store → Store × Option String) :
    (TaskManager.runSession fs now body).1.main =
      FileData.records ((body (TaskManager.load_tasks fs.main now)).1.map
        (fun p => (p.1, p.2.to_dict))) ∧
    (TaskManager.runSession fs now body).2 =
      (body (TaskManager.load_tasks fs.main now)).2 :=
  ⟨rfl, rfl⟩

theorem find_one_match (ts : Store) (pid : String)
    (hwf : ∀ p ∈ ts, (p.2).id = p.1)
    (hlen : (find_hits ts pid).length = 1) :
    ∃ t, find_task_by_partial_id ts pid = FindResult.task (some t) ∧
      t.id.startsWith pid = true ∧ (t.id, t) ∈ ts := by
  obtain ⟨tid, htid⟩ : ∃ tid, find_hits ts pid = [tid] := by
    match hh : find_hits ts pid with
    | [] => rw [hh] at hlen; simp at hlen
    | [a] => exact ⟨a, rfl⟩
    | a :: b :: rest => rw [hh] at hlen; simp at hlen
  have hmem : tid ∈ find_hits ts pid := by
    rw [htid]
    exact List.mem_singleton_self tid
  unfold find_hits at hmem
  rw [List.mem_filter] at hmem
  obtain ⟨hmemmap, hsw⟩ := hmem
  rw [List.mem_map] at hmemmap
  obtain ⟨p0, hp0, hp0id⟩ := hmemmap
  have hsome : (ts.find? (fun p => p.1 = tid)).isSome := by
    rw [List.find?_isSome]
    exact ⟨p0, hp0, by simp [hp0id]⟩
  obtain ⟨q, hq⟩ := Option.isSome_iff_exists.mp hsome
  have hq1 : q.1 = tid := by
    have h := List.find?_some hq
    simpa using h
  have hqmem : q ∈ ts := List.mem_of_find?_eq_some hq
  refine ⟨q.2, ?_, ?_, ?_⟩
  · unfold find_task_by_partial_id
    rw [if_neg (by rw [htid]; simp), if_neg (by rw [htid]; simp)]
    rw [htid]
    simp only [List.headI]
    unfold TaskManager.get
    rw [hq]
    rfl
  · rw [hwf q hqmem, hq1]
    exact hsw
  · rw [hwf q hqmem]
    exact hqmem

/-- C6: prefix lookup is a trichotomy over the starts-with relation on
stored ids: zero matches exit not-found, two or more exit ambiguous, and
exactly one match returns the task stored under that id, whose id starts
with the given string; the id of a returned task always starts with it. -/
theorem c6_prefix_lookup_trichotomy (ts : Store) (pid : String)
    (hwf : ∀ p ∈ ts, (p.2).id = p.1) :
    ((find_hits ts pid).length = 0 →
      find_task_by_partial_id ts pid = FindResult.exitNotFound) ∧
    ((find_hits ts pid).length > 1 →
      find_task_by_partial_id ts pid = FindResult.exitAmbiguous) ∧
    ((find_hits ts pid).length = 1 →
      ∃ t, find_task_by_partial_id ts pid = FindResult.task (some t) ∧
        t.id.startsWith pid = true ∧ (t.id, t) ∈ ts) ∧
    (∀ t, find_task_by_partial_id ts pid = FindResult.task (some t) →
      t.id.startsWith pid = true) := by
  refine ⟨?_, ?_, find_one_match ts pid hwf, ?_⟩
  · intro h
    unfold find_task_by_partial_id
    rw [if_pos h]
  · intro h
    unfold find_task_by_partial_id
    rw [if_neg (by omega), if_pos h]
  · intro t ht
    rcases Nat.lt_trichotomy (find_hits ts pid).length 1 with h | h | h
    · have h0 : (find_hits ts pid).length = 0 := by omega
      unfold find_task_by_partial_id at ht
      rw [if_pos h0] at ht
      exact FindResult.noConfusion ht
    · obtain ⟨t0, h0, hsw, _⟩ := find_one_match ts pid hwf h
      rw [h0] at ht
      have : some t0 = some t := by
        injection ht
      have ht0 : t0 = t := Option.some.inj this
      rw [← ht0]
      exact hsw
    · unfold find_task_by_partial_id at ht
      rw [if_neg (by omega), if_pos h] at ht
      exact FindResult.noConfusion ht

/-- Concrete two-task store for the prefix-lookup claim (ids share the
leading character). -/
def taskA : Task :=
  { name := "A", id := "abc", target_time := none, desc := none,
    dead_time := none, created_time := 1, start_times := [], pause_times := [],
    is_complete := false }

/-- Second concrete task for the prefix-lookup claim. -/
def taskB : Task :=
  { name := "B", id := "axy", target_time := none, desc := none,
    dead_time := none, created_time := 2, start_times := [], pause_times := [],
    is_complete := false }

/-- Concrete store for the prefix-lookup claim. -/
def storeC6 : Store := [("abc", taskA), ("axy", taskB)]

theorem c6_witness :
    ((find_hits storeC6 "ab").length = 0 →
      find_task_by_partial_id storeC6 "ab" = FindResult.exitNotFound) ∧
    ((find_hits storeC6 "ab").length > 1 →
      find_task_by_partial_id storeC6 "ab" = FindResult.exitAmbiguous) ∧
    ((find_hits storeC6 "ab").length = 1 →
      ∃ t, find_task_by_partial_id storeC6 "ab" = FindResult.task (some t) ∧
        t.id.startsWith "ab" = true ∧ (t.id, t) ∈ storeC6) ∧
    (∀ t, find_task_by_partial_id storeC6 "ab" = FindResult.task (some t) →
      t.id.startsWith "ab" = true) :=
  c6_prefix_lookup_trichotomy storeC6 "ab" (by decide)

theorem listLoop_some (fsv : TaskStatus) (sa : Bool) (l : List Task) :
    listLoop sa (some fsv) l = l.filter (fun t => decide (t.status = fsv)) := by
  induction l with
  | nil => rfl
  | cons x xs ih =>
    unfold listLoop
    by_cases hx : x.status = fsv
    · simp [skipByFilter, skipCompleted, hx, ih]
    · simp [skipByFilter, skipCompleted, hx, ih]

theorem listLoop_none_false (l : List Task) :
    listLoop false none l
      = l.filter (fun t => decide (t.status ≠ TaskStatus.completed)) := by
  induction l with
  | nil => rfl
  | cons x xs ih =>
    unfold listLoop
    by_cases hx : x.status = TaskStatus.completed
    · simp [skipByFilter, skipCompleted, hx, ih]
    · simp [skipByFilter, skipCompleted, hx, ih]

theorem listLoop_none_true (l : List Task) : listLoop true none l = l := by
  induction l with
  | nil => rfl
  | cons x xs ih => simp [listLoop, skipByFilter, skipCompleted, ih]

theorem sortByCreated_pairwise (l : List Task) :
    (sortByCreated l).Pairwise createdLe :=
  List.sorted_insertionSort createdLe l

/-- Concrete pending task for the listing claim. -/
def taskP : Task :=
  { name := "P", id := "p1", target_time := none, desc := none,
    dead_time := none, created_time := 1, start_times := [], pause_times := [],
    is_complete := false }

/-- Concrete ongoing task for the listing claim. -/
def taskO : Task :=
  { name := "O", id := "o1", target_time := none, desc := none,
    dead_time := none, created_time := 2, start_times := [10], pause_times := [],
    is_complete := false }

/-- Concrete paused task for the listing claim. -/
def taskPa : Task :=
  { name := "Pa", id := "q1", target_time := none, desc := none,
    dead_time := none, created_time := 3, start_times := [20], pause_times := [30],
    is_complete := false }

/-- Concrete completed task for the listing claim. -/
def taskC : Task :=
  { name := "C", id := "c1", target_time := none, desc := none,
    dead_time := none, created_time := 4, start_times := [], pause_times := [],
    is_complete := true }

/-- Store holding one task of every status, inserted out of creation
order. -/
def storeC7 : Store :=
  [("c1", taskC), ("p1", taskP), ("q1", taskPa), ("o1", taskO)]

/-- C7: list_all renders the tasks sorted ascending by created_time; with a
status filter exactly the tasks of that derived status, otherwise all tasks
except completed ones unless show_all; on a store with one task of each
status the default call yields the pending, ongoing and paused ones in
creation order, and show_all yields all four. -/
theorem c7_list_all (ts : Store) (sa : Bool) (fsv : TaskStatus) :
    (TaskManager.list_all ts sa (some fsv)
      = (sortByCreated (ts.map Prod.snd)).filter
          (fun t => decide (t.status = fsv))) ∧
    (TaskManager.list_all ts false none
      = (sortByCreated (ts.map Prod.snd)).filter
          (fun t => decide (t.status ≠ TaskStatus.completed))) ∧
    (TaskManager.list_all ts true none = sortByCreated (ts.map Prod.snd)) ∧
    (∀ fs2 : Option TaskStatus,
      (TaskManager.list_all ts sa fs2).Pairwise createdLe) ∧
    (TaskManager.list_all storeC7 false none = [taskP, taskO, taskPa]) ∧
    (TaskManager.list_all storeC7 true none = [taskP, taskO, taskPa, taskC]) := by
  refine ⟨listLoop_some fsv sa _, listLoop_none_false _, listLoop_none_true _,
    ?_, by decide, by decide⟩
  intro fs2
  have hs := sortByCreated_pairwise (ts.map Prod.snd)
  cases fs2 with
  | some v =>
    show (listLoop sa (some v) (sortByCreated (ts.map Prod.snd))).Pairwise createdLe
    rw [listLoop_some]
    exact List.Pairwise.sublist (List.filter_sublist _) hs
  | none =>
    cases sa with
    | false =>
      show (listLoop false none (sortByCreated (ts.map Prod.snd))).Pairwise createdLe
      rw [listLoop_none_false]
      exact List.Pairwise.sublist (List.filter_sublist _) hs
    | true =>
      show (listLoop true none (sortByCreated (ts.map Prod.snd))).Pairwise createdLe
      rw [listLoop_none_true]
      exact hs

end Ceyal
